import Mathlib

/-!
Verification of the UDP binding layer (src/core/binding.c) of the msquic
repository. Each C function relevant to the verified claims is shallowly
embedded as an executable Lean definition; external collaborators (decryption,
allocation success, worker state, datapath) appear as explicit inputs.
Machine integers are modelled as Nat with explicit reductions modulo 2^w at
the points where the C code performs narrowing or wrap-around arithmetic.
Constants defined in headers that are not part of the provided sources
(packet-size limits, struct sizes) are taken as explicit parameters of the
definitions so that theorems quantify over every consistent choice.
-/

namespace MsQuic

/-- Decrypted contents of a retry token (QUIC_RETRY_TOKEN_CONTENTS): the
remote address the token was minted for and the length of the original
connection id stored in the token. Addresses are modelled as opaque Nat. -/
structure RetryTokenContents where
  remoteAddress : Nat
  origConnIdLength : Nat
  deriving DecidableEq, Repr

/-- Embedding of QuicBindingProcessRetryToken (binding.c lines 1008-1042).
Inputs: the received token length, the size of QUIC_RETRY_TOKEN_CONTENTS and
the capacity of its OrigConnId field (header constants, taken as parameters),
the result of QuicRetryTokenDecrypt (none on decryption failure), and the
remote address of the inbound datagram. Returns TRUE iff the token is
accepted; each failing check returns FALSE (with a drop trace in the C). -/
def quicBindingProcessRetryToken (tokenLength tokenSize origConnIdCapacity : Nat)
    (decrypted : Option RetryTokenContents) (remoteAddress : Nat) : Bool :=
  if tokenLength ≠ tokenSize then
    false
  else
    match decrypted with
    | none => false
    | some t =>
      if t.origConnIdLength > origConnIdCapacity then
        false
      else
        decide (t.remoteAddress = remoteAddress)

/-- Acceptance condition for a retry token as the specification words it:
correct length, successful decryption, original CID fits, and address match. -/
def spec_retryTokenAccepted (tokenLength tokenSize origConnIdCapacity : Nat)
    (decrypted : Option RetryTokenContents) (remoteAddress : Nat) : Prop :=
  tokenLength = tokenSize ∧
  ∃ t, decrypted = some t ∧
    t.origConnIdLength ≤ origConnIdCapacity ∧
    t.remoteAddress = remoteAddress

/-- Helper: the retry token validator accepts exactly when the specification
acceptance condition holds. Shared by the theorems for C7 and C8. -/
theorem processRetryToken_eq_spec (tokenLength tokenSize origConnIdCapacity : Nat)
    (decrypted : Option RetryTokenContents) (remoteAddress : Nat) :
    quicBindingProcessRetryToken tokenLength tokenSize origConnIdCapacity
      decrypted remoteAddress = true ↔
    spec_retryTokenAccepted tokenLength tokenSize origConnIdCapacity
      decrypted remoteAddress := by
  unfold quicBindingProcessRetryToken spec_retryTokenAccepted
  constructor
  · intro h
    by_cases hlen : tokenLength = tokenSize
    · simp only [hlen, ne_eq, not_true_eq_false, if_false] at h
      cases decrypted with
      | none => simp at h
      | some t =>
        refine ⟨hlen, t, rfl, ?_, ?_⟩
        · by_cases hcap : t.origConnIdLength > origConnIdCapacity
          · simp [hcap] at h
          · omega
        · by_cases hcap : t.origConnIdLength > origConnIdCapacity
          · simp [hcap] at h
          · simpa [hcap] using h
    · simp [hlen] at h
  · rintro ⟨hlen, t, hdec, hcap, haddr⟩
    subst hdec
    simp [hlen, haddr, Nat.not_lt.mpr hcap]

/-- Result of the retry-gating decision: whether a Retry is requested,
whether the caller must drop the packet, and whether the packet was marked
as carrying a valid token. The two flag fields thread the values the packet
and the DropPacket out-parameter held before the call. -/
structure RetryGateResult where
  retry : Bool
  dropPacket : Bool
  validToken : Bool
  deriving DecidableEq, Repr

/-- Embedding of QuicBindingShouldRetryConnection (binding.c lines 1044-1092).
External inputs: the library retry settings and current handshake memory
usage; the outcome of QuicPacketValidateLongHeaderD23 (validationOk plus the
token length it reported); the decryption oracle and remote address consumed
by quicBindingProcessRetryToken; and the incoming values of the DropPacket
flag and the packet ValidToken flag. -/
def quicBindingShouldRetryConnection
    (retryMemoryLimit totalMemory currentHandshakeMemoryUsage : Nat)
    (validationOk : Bool) (tokenLength : Nat)
    (tokenSize origConnIdCapacity : Nat)
    (decrypted : Option RetryTokenContents) (remoteAddress : Nat)
    (dropPacket0 validToken0 : Bool) : RetryGateResult :=
  let currentMemoryLimit := retryMemoryLimit * totalMemory / 65535
  if currentHandshakeMemoryUsage < currentMemoryLimit then
    ⟨false, dropPacket0, validToken0⟩
  else if ¬ validationOk then
    ⟨false, true, validToken0⟩
  else if tokenLength = 0 then
    ⟨true, dropPacket0, validToken0⟩
  else if ¬ quicBindingProcessRetryToken tokenLength tokenSize
      origConnIdCapacity decrypted remoteAddress then
    ⟨false, true, validToken0⟩
  else
    ⟨false, dropPacket0, true⟩

instance (tokenLength tokenSize origConnIdCapacity : Nat)
    (decrypted : Option RetryTokenContents) (remoteAddress : Nat) :
    Decidable (spec_retryTokenAccepted tokenLength tokenSize
      origConnIdCapacity decrypted remoteAddress) :=
  decidable_of_iff _ (processRetryToken_eq_spec tokenLength tokenSize
    origConnIdCapacity decrypted remoteAddress)

/-- Retry gating exactly as the specification describes it: below the memory
limit return false untouched; otherwise a failed long-header validation or a
failed token validation sets the drop flag; an absent token requests a Retry;
a validated token marks the packet. -/
def spec_retryGating
    (retryMemoryLimit totalMemory currentHandshakeMemoryUsage : Nat)
    (validationOk : Bool) (tokenLength : Nat)
    (tokenSize origConnIdCapacity : Nat)
    (decrypted : Option RetryTokenContents) (remoteAddress : Nat)
    (dropPacket0 validToken0 : Bool) : RetryGateResult :=
  if currentHandshakeMemoryUsage < retryMemoryLimit * totalMemory / 65535 then
    ⟨false, dropPacket0, validToken0⟩
  else if ¬ validationOk then
    ⟨false, true, validToken0⟩
  else if tokenLength = 0 then
    ⟨true, dropPacket0, validToken0⟩
  else if spec_retryTokenAccepted tokenLength tokenSize origConnIdCapacity
      decrypted remoteAddress then
    ⟨false, dropPacket0, true⟩
  else
    ⟨false, true, validToken0⟩

/-- C8: QuicBindingProcessRetryToken accepts a retry token if and only if the
token length equals the size of QUIC_RETRY_TOKEN_CONTENTS, decryption
succeeds, the decrypted original-CID length does not exceed the OrigConnId
capacity, and the token remote address equals the inbound remote address; on
each failing condition it returns false. -/
theorem retryToken_accept_iff (tokenLength tokenSize origConnIdCapacity : Nat)
    (decrypted : Option RetryTokenContents) (remoteAddress : Nat) :
    quicBindingProcessRetryToken tokenLength tokenSize origConnIdCapacity
      decrypted remoteAddress = true ↔
    tokenLength = tokenSize ∧
    ∃ t, decrypted = some t ∧
      t.origConnIdLength ≤ origConnIdCapacity ∧
      t.remoteAddress = remoteAddress :=
  processRetryToken_eq_spec tokenLength tokenSize origConnIdCapacity
    decrypted remoteAddress

/-- C7: the retry-gating function behaves exactly as the specification
states: below the memory limit it returns false leaving both flags untouched;
otherwise a failed long-header validation or failed token validation sets the
drop flag with no retry; an absent token requests a retry; a validated token
sets the ValidToken flag with no retry. -/
theorem shouldRetryConnection_eq_spec
    (retryMemoryLimit totalMemory currentHandshakeMemoryUsage : Nat)
    (validationOk : Bool) (tokenLength : Nat)
    (tokenSize origConnIdCapacity : Nat)
    (decrypted : Option RetryTokenContents) (remoteAddress : Nat)
    (dropPacket0 validToken0 : Bool) :
    quicBindingShouldRetryConnection retryMemoryLimit totalMemory
      currentHandshakeMemoryUsage validationOk tokenLength tokenSize
      origConnIdCapacity decrypted remoteAddress dropPacket0 validToken0 =
    spec_retryGating retryMemoryLimit totalMemory
      currentHandshakeMemoryUsage validationOk tokenLength tokenSize
      origConnIdCapacity decrypted remoteAddress dropPacket0 validToken0 := by
  unfold quicBindingShouldRetryConnection spec_retryGating
  by_cases hmem : currentHandshakeMemoryUsage <
      retryMemoryLimit * totalMemory / 65535
  · simp [hmem]
  · by_cases hval : validationOk
    · by_cases htok : tokenLength = 0
      · simp [hmem, hval, htok]
      · by_cases hacc : spec_retryTokenAccepted tokenLength tokenSize
            origConnIdCapacity decrypted remoteAddress
        · have := (processRetryToken_eq_spec tokenLength tokenSize
            origConnIdCapacity decrypted remoteAddress).mpr hacc
          simp [hmem, hval, htok, this, hacc]
        · have hfalse : quicBindingProcessRetryToken tokenLength tokenSize
              origConnIdCapacity decrypted remoteAddress = false := by
            rcases Bool.eq_false_or_eq_true (quicBindingProcessRetryToken
              tokenLength tokenSize origConnIdCapacity decrypted
              remoteAddress) with h | h
            · exact absurd ((processRetryToken_eq_spec tokenLength tokenSize
                origConnIdCapacity decrypted remoteAddress).mp h) hacc
            · exact h
          simp [hmem, hval, htok, hfalse, hacc]
    · simp [hmem, hval]

/-- Embedding of the admission checks of QuicBindingQueueStatelessReset
(binding.c lines 873-910). Inputs: the long-header bit of the inbound
datagram first byte, the datagram length, the binding exclusive flag, the
minimum stateless-reset packet length (a header constant, parameter), and
the outcome of QuicBindingQueueStatelessOperation (external). Returns TRUE
iff a stateless reset operation was queued. -/
def quicBindingQueueStatelessReset (isLongHeader : Bool) (bufferLength : Nat)
    (exclusive : Bool) (minResetLength : Nat) (queueOk : Bool) : Bool :=
  if isLongHeader then
    false
  else if bufferLength ≤ minResetLength then
    false
  else if exclusive then
    false
  else
    queueOk

/-- Embedding of the stateless-reset length computation of
QuicBindingProcessStatelessOperation (binding.c lines 727-737). PacketLength
is a uint8: the random byte is shifted right by 5, the recommended length is
added with wrap-around modulo 256, and when the value reaches the received
BufferLength it is clamped to the uint8 narrowing of BufferLength minus 1. -/
def statelessResetPacketLength (randomByte bufferLength recommendedLength : Nat) : Nat :=
  let packetLength := ((randomByte % 256) >>> 5 + recommendedLength) % 256
  if bufferLength ≤ packetLength then
    (bufferLength % 256 + 255) % 256
  else
    packetLength

/-- C4: for every datagram admitted by QuicBindingQueueStatelessReset (short
header, non-exclusive binding, BufferLength strictly above the minimum) and
for header constants with minimum at most recommended and recommended + 7
representable in a uint8, the reset length equals the three high bits of the
random byte plus the recommended length, clamped to BufferLength minus 1 when
it would otherwise reach BufferLength; it always lies in the interval from
the minimum length (inclusive) to BufferLength (exclusive), so the debug
assertion holds and the response is strictly shorter than the inbound. -/
theorem statelessReset_length_bounds
    (isLongHeader exclusive : Bool) (bufferLength : Nat)
    (minResetLength recommendedLength randomByte : Nat)
    (hqueued : quicBindingQueueStatelessReset isLongHeader bufferLength
      exclusive minResetLength true = true)
    (hminrec : minResetLength ≤ recommendedLength)
    (hrec : recommendedLength + 7 ≤ 255)
    (hbuf : bufferLength < 65536) :
    statelessResetPacketLength randomByte bufferLength recommendedLength =
      (if bufferLength ≤ (randomByte % 256) >>> 5 + recommendedLength then
        bufferLength - 1
      else
        (randomByte % 256) >>> 5 + recommendedLength) ∧
    minResetLength ≤
      statelessResetPacketLength randomByte bufferLength recommendedLength ∧
    statelessResetPacketLength randomByte bufferLength recommendedLength <
      bufferLength := by
  have hmin : minResetLength < bufferLength := by
    unfold quicBindingQueueStatelessReset at hqueued
    by_cases h1 : isLongHeader
    · simp [h1] at hqueued
    · by_cases h2 : bufferLength ≤ minResetLength
      · simp [h1, h2] at hqueued
      · omega
  have hshift : (randomByte % 256) >>> 5 ≤ 7 := by
    have h8 : randomByte % 256 < 256 := Nat.mod_lt _ (by omega)
    have : (randomByte % 256) >>> 5 = randomByte % 256 / 32 := by
      simp [Nat.shiftRight_eq_div_pow]
    omega
  have hnowrap : (randomByte % 256) >>> 5 + recommendedLength ≤ 255 := by omega
  have hmod : ((randomByte % 256) >>> 5 + recommendedLength) % 256 =
      (randomByte % 256) >>> 5 + recommendedLength := Nat.mod_eq_of_lt (by omega)
  unfold statelessResetPacketLength
  simp only [hmod]
  by_cases hclamp : bufferLength ≤ (randomByte % 256) >>> 5 + recommendedLength
  · have hble : bufferLength ≤ 255 := by omega
    have hbmod : bufferLength % 256 = bufferLength := Nat.mod_eq_of_lt (by omega)
    have hres : (bufferLength % 256 + 255) % 256 = bufferLength - 1 := by
      rw [hbmod]
      have : bufferLength + 255 = (bufferLength - 1) + 1 * 256 := by omega
      rw [this, Nat.add_mul_mod_self_right]
      exact Nat.mod_eq_of_lt (by omega)
    simp only [if_pos hclamp, hres]
    refine ⟨trivial, ?_, ?_⟩ <;> omega
  · simp only [if_neg hclamp]
    refine ⟨trivial, ?_, ?_⟩ <;> omega

/-- Witness for the stateless-reset length theorem at concrete values:
a short-header 60-byte datagram on a shared binding, minimum length 39,
recommended length 41, random byte 255 (three high bits all set). -/
theorem statelessReset_length_bounds_witness :
    statelessResetPacketLength 255 60 41 = 48 ∧
    39 ≤ statelessResetPacketLength 255 60 41 ∧
    statelessResetPacketLength 255 60 41 < 60 := by
  have h := statelessReset_length_bounds false false 60 39 41 255
    (by decide) (by decide) (by decide) (by decide)
  exact ⟨by rw [h.1]; decide, h.2.1, h.2.2⟩

/-- Events observable on the datapath send context created at the top of
QuicBindingProcessStatelessOperation: it is either handed to
QuicBindingSendFromTo or freed by QuicDataPathBindingFreeSendContext. -/
inductive SendContextEvent where
  | handedToSend
  | freed
  deriving DecidableEq, Repr

/-- The three stateless operation types the function dispatches on. -/
inductive StatelessOperType where
  | versionNegotiation
  | statelessReset
  | retry
  deriving DecidableEq, Repr

/-- Embedding of the send-context disposal behaviour of
QuicBindingProcessStatelessOperation (binding.c lines 647-839). Inputs are
the operation type and the success of the two datapath allocations. The
trace records each hand-off to QuicBindingSendFromTo and each call to
QuicDataPathBindingFreeSendContext in program order. On the successful path
all three branches send and null the local SendContext variable, so the Exit
block frees nothing. On a datagram allocation failure the VN and reset
branches jump to Exit with SendContext still non-null (one free); the retry
branch (lines 777-781) first calls QuicDataPathBindingFreeSendContext itself
without nulling SendContext and then jumps to Exit, which frees again. -/
def statelessOpSendContextTrace (operType : StatelessOperType)
    (sendContextAllocOk sendDatagramAllocOk : Bool) : List SendContextEvent :=
  if ¬ sendContextAllocOk then
    []
  else if sendDatagramAllocOk then
    [SendContextEvent.handedToSend]
  else
    match operType with
    | StatelessOperType.versionNegotiation => [SendContextEvent.freed]
    | StatelessOperType.statelessReset => [SendContextEvent.freed]
    | StatelessOperType.retry => [SendContextEvent.freed, SendContextEvent.freed]

/-- C10 (code bug): on the path where the Retry send datagram allocation
fails, the send context is freed twice — once explicitly in the retry branch
and once again by the Exit block, because the branch does not null the
SendContext variable. Every other path disposes of the context exactly once. -/
theorem statelessOp_retry_double_free :
    (statelessOpSendContextTrace StatelessOperType.retry true false).count
      SendContextEvent.freed = 2 ∧
    (statelessOpSendContextTrace StatelessOperType.retry true false).count
      SendContextEvent.handedToSend = 0 ∧
    (statelessOpSendContextTrace StatelessOperType.versionNegotiation
      true false).length = 1 ∧
    (statelessOpSendContextTrace StatelessOperType.statelessReset
      true false).length = 1 ∧
    (statelessOpSendContextTrace StatelessOperType.retry true true).length = 1 := by
  decide

/-- Outcome of QuicBindingCreateConnection: the connection pointer that is
returned; the pointer on which the one-shot InterlockedCompareExchange16 on
BackUpOperUsed is performed (outer none: no CAS executed; some none: the CAS
dereferences a NULL pointer); and the connection on which the backup
operation is queued by QuicConnQueueOper. Connections are identified by
opaque Nat ids, with pointers as Option Nat (none = NULL). -/
structure CreateConnOutcome where
  returned : Option Nat
  casTargetPtr : Option (Option Nat)
  operQueuedOn : Option Nat
  deriving DecidableEq, Repr

/-- Embedding of the control flow of QuicBindingCreateConnection (binding.c
lines 1094-1207). Inputs: the id of the freshly initialised connection
(NewConnection), the success of QuicConnInitialize, the worker overload
check, QuicLibraryTryAddRefBinding, and QuicLookupAddSourceConnectionID,
and the value the lookup wrote into the local variable Connection (none =
NULL, as on a memory failure; some c = the colliding existing connection).
The local variable Connection starts NULL and is written only by the lookup
insertion on its failure path; the Exit path with BindingRefAdded performs
the CAS on Connection->BackUpOperUsed and queues the backup operation on
NewConnection. -/
def quicBindingCreateConnection (newConnection : Nat)
    (connInitOk workerNotOverloaded tryAddRefOk insertOk : Bool)
    (lookupCollision : Option Nat) : CreateConnOutcome :=
  if ¬ connInitOk then
    { returned := none, casTargetPtr := none, operQueuedOn := none }
  else if ¬ workerNotOverloaded then
    { returned := none, casTargetPtr := none, operQueuedOn := none }
  else if ¬ tryAddRefOk then
    { returned := none, casTargetPtr := none, operQueuedOn := none }
  else if insertOk then
    { returned := some newConnection, casTargetPtr := none, operQueuedOn := none }
  else
    { returned := lookupCollision,
      casTargetPtr := some lookupCollision,
      operQueuedOn := some newConnection }

/-- C1 (code bug): on the failure path after QuicLibraryTryAddRefBinding
succeeded and the source-CID insertion failed without a collision (the
lookup left Connection NULL), the backup operation is queued on the new
connection but the compare-and-swap is executed through the NULL Connection
pointer instead of the new connection BackUpOperUsed flag; on the collision
path it is executed on the colliding connection flag. -/
theorem createConnection_cas_wrong_connection :
    (quicBindingCreateConnection 42 true true true false none).operQueuedOn
      = some 42 ∧
    (quicBindingCreateConnection 42 true true true false none).casTargetPtr
      = some none ∧
    (quicBindingCreateConnection 42 true true true false (some 7)).casTargetPtr
      = some (some 7) ∧
    (quicBindingCreateConnection 42 true true true false (some 7)).casTargetPtr
      ≠ some (some 42) := by
  decide

/-- Address families relevant to the listener registry, with the numeric
ordering the C code relies on (AF_INET6 greater than AF_INET greater than
AF_UNSPEC). -/
inductive AddressFamily where
  | unspec
  | inet
  | inet6
  deriving DecidableEq, Repr

/-- Numeric code of an address family: any strictly monotone assignment with
unspec lowest and inet6 highest reflects the platform AF constants that
QuicBindingRegisterListener compares with the greater-than operator. -/
def AddressFamily.code : AddressFamily → Nat
  | AddressFamily.unspec => 0
  | AddressFamily.inet => 1
  | AddressFamily.inet6 => 2

/-- A registered listener as the binding sees it: local address family,
wildcard flag, IP (opaque Nat), the owning session ALPN bytes, whether
QuicRundownAcquire on it currently succeeds, and an identity used to model
pointer identity for unregistration. -/
structure QuicListener where
  family : AddressFamily
  wildCard : Bool
  ip : Nat
  alpn : List Nat
  rundownLive : Bool
  id : Nat
  deriving DecidableEq, Repr

/-- Address admissibility test of the inner loop of QuicBindingGetListener
(binding.c lines 382-387): a listener with a non-unspec family requires the
packet family to match and, unless the listener is wildcard, the IPs to
compare equal; an unspec-family listener matches any address. -/
def listenerAddrMatches (l : QuicListener) (family : AddressFamily)
    (ip : Nat) : Bool :=
  if l.family = AddressFamily.unspec then
    true
  else if family ≠ l.family then
    false
  else if ¬ l.wildCard ∧ ip ≠ l.ip then
    false
  else
    true

/-- Inner listener scan of QuicBindingGetListener for one client ALPN
(binding.c lines 372-396). Returns none when the loop runs off the end of
the list without an ALPN match (the outer loop then advances to the next
client ALPN); returns some r when a listener matched address and ALPN, where
r is the result of the goto Done: the listener if its rundown was acquired,
none if QuicRundownAcquire failed. -/
def findListenerForAlpn (listeners : List QuicListener)
    (family : AddressFamily) (ip : Nat) (alpn : List Nat) :
    Option (Option QuicListener) :=
  match listeners with
  | [] => none
  | l :: rest =>
    if ¬ listenerAddrMatches l family ip then
      findListenerForAlpn rest family ip alpn
    else if alpn = l.alpn then
      some (if l.rundownLive then some l else none)
    else
      findListenerForAlpn rest family ip alpn

/-- Embedding of QuicBindingGetListener (binding.c lines 340-407). The ALPN
list is the prevalidated length-prefixed byte string of the client's ALPNs
in preference order; for each entry the listener list is scanned in order,
and the first address-and-ALPN match ends the search via goto Done with the
rundown-acquire result. -/
def quicBindingGetListener (listeners : List QuicListener)
    (family : AddressFamily) (ip : Nat) :
    List Nat → Option QuicListener
  | [] => none
  | len :: rest =>
    match findListenerForAlpn listeners family ip (rest.take len) with
    | some r => r
    | none => quicBindingGetListener listeners family ip (rest.drop len)
  termination_by buf => buf.length
  decreasing_by
    simp only [List.length_drop, List.length_cons]
    omega

/-- First listener matching address and ALPN for one client ALPN, ignoring
rundown state; reference function for the amended claim. -/
def firstAlpnListenerMatch (listeners : List QuicListener)
    (family : AddressFamily) (ip : Nat) (alpn : List Nat) :
    Option QuicListener :=
  match listeners with
  | [] => none
  | l :: rest =>
    if listenerAddrMatches l family ip ∧ alpn = l.alpn then
      some l
    else
      firstAlpnListenerMatch rest family ip alpn

/-- First matching listener over the whole client ALPN preference list
(client-order outer, listener-order inner), ignoring rundown state. -/
def spec_firstListenerMatch (listeners : List QuicListener)
    (family : AddressFamily) (ip : Nat) :
    List Nat → Option QuicListener
  | [] => none
  | len :: rest =>
    match firstAlpnListenerMatch listeners family ip (rest.take len) with
    | some l => some l
    | none => spec_firstListenerMatch listeners family ip (rest.drop len)
  termination_by buf => buf.length
  decreasing_by
    simp only [List.length_drop, List.length_cons]
    omega

/-- Helper: the inner scan returns the rundown-filter of the first ignoring-
rundown match. -/
theorem findListenerForAlpn_eq_filter (listeners : List QuicListener)
    (family : AddressFamily) (ip : Nat) (alpn : List Nat) :
    findListenerForAlpn listeners family ip alpn =
      (firstAlpnListenerMatch listeners family ip alpn).map
        (fun l => if l.rundownLive then some l else none) := by
  induction listeners with
  | nil => rfl
  | cons l rest ih =>
    unfold findListenerForAlpn firstAlpnListenerMatch
    by_cases haddr : listenerAddrMatches l family ip
    · by_cases halpn : alpn = l.alpn
      · simp [haddr, halpn]
      · simp [haddr, halpn, ih]
    · simp [haddr, ih]

/-- C2 counterexample: two listeners both matching the lone client ALPN; the
first has a dead rundown, the second is live. The claim as stated requires
the dead listener to be skipped and the live one returned; the code stops at
the first match and returns no listener at all. -/
theorem getListener_dead_first_match_counterexample :
    (quicBindingGetListener
      [⟨AddressFamily.inet, false, 5, [97], false, 1⟩,
       ⟨AddressFamily.inet, false, 5, [97], true, 2⟩]
      AddressFamily.inet 5 [1, 97] = none) ∧
    listenerAddrMatches ⟨AddressFamily.inet, false, 5, [97], false, 1⟩
      AddressFamily.inet 5 = true ∧
    listenerAddrMatches ⟨AddressFamily.inet, false, 5, [97], true, 2⟩
      AddressFamily.inet 5 = true := by
  refine ⟨?_, by decide, by decide⟩
  rw [quicBindingGetListener.eq_def]
  rfl

/-- C2 amended: QuicBindingGetListener returns exactly the rundown-filter of
the first listener (client-ALPN order outer, listener order inner) whose
family, address and ALPN match: that listener when its rundown is acquired,
and no listener at all when the first match is being torn down — a dead
first match is not skipped and later matching listeners are not considered. -/
theorem getListener_eq_firstMatch_filter (listeners : List QuicListener)
    (family : AddressFamily) (ip : Nat) (alpnBuf : List Nat) :
    quicBindingGetListener listeners family ip alpnBuf =
      (spec_firstListenerMatch listeners family ip alpnBuf).bind
        (fun l => if l.rundownLive then some l else none) := by
  induction alpnBuf using quicBindingGetListener.induct listeners family ip with
  | case1 =>
    rw [quicBindingGetListener.eq_def, spec_firstListenerMatch.eq_def]
    rfl
  | case2 len rest r hfind =>
    rw [quicBindingGetListener.eq_def, spec_firstListenerMatch.eq_def]
    rw [findListenerForAlpn_eq_filter] at hfind
    cases hmatch : firstAlpnListenerMatch listeners family ip (rest.take len) with
    | none => simp [hmatch] at hfind
    | some l =>
      rw [hmatch] at hfind
      simp only [Option.map_some'] at hfind
      simp only [findListenerForAlpn_eq_filter, hmatch, Option.map_some', hfind,
        Option.some_bind]
      exact (Option.some_inj.mp hfind).symm
  | case3 len rest hfind ih =>
    rw [quicBindingGetListener.eq_def, spec_firstListenerMatch.eq_def]
    rw [findListenerForAlpn_eq_filter] at hfind
    cases hmatch : firstAlpnListenerMatch listeners family ip (rest.take len) with
    | none =>
      simp only [findListenerForAlpn_eq_filter, hmatch, Option.map_none']
      exact ih
    | some l => simp [hmatch] at hfind

/-- Serialisation of a 32-bit value into its four bytes in memory order.
The C code stores Version fields by struct assignment; one fixed byte order
is used consistently for encoding and for reading fields back. -/
def word32 (v : Nat) : List Nat :=
  [v % 256, v / 256 % 256, v / 65536 % 256, v / 16777216 % 256]

/-- Byte image of the constant QuicSupportedVersionList: the fixed supported
versions serialised back to back. -/
def supportedVersionListBytes (versions : List Nat) : List Nat :=
  (versions.map word32).flatten

/-- Embedding of the Version Negotiation encoder of
QuicBindingProcessStatelessOperation (binding.c lines 654-708) as the byte
image of the send datagram. The QUIC_VERSION_NEGOTIATION_PACKET header is
six bytes: byte 0 holds Unused in its low seven bits (written as 0x7F masked
with a random byte) and IsLongHeader (set to TRUE) in the top bit, bytes 1-4
hold the Version field (the VN marker, a header constant parameter), and
byte 5 is DestCIDLength, which the code sets to the inbound SourceCIDLen.
The trailing flexible buffer then receives the inbound source CID, the
inbound destination CID length and bytes, the binding random reserved
version, and the fixed supported-version list. -/
def buildVersionNegotiationPacket (sourceCID destCID : List Nat)
    (randomByte verNegMarker reservedVersion : Nat)
    (supported : List Nat) : List Nat :=
  [randomByte % 128 + 128] ++
  word32 verNegMarker ++
  [sourceCID.length] ++
  sourceCID ++
  [destCID.length] ++
  destCID ++
  word32 reservedVersion ++
  supportedVersionListBytes supported

/-- Helper: joined 32-bit words occupy four bytes per version. -/
theorem supportedVersionListBytes_length (versions : List Nat) :
    (supportedVersionListBytes versions).length = 4 * versions.length := by
  induction versions with
  | nil => rfl
  | cons v rest ih =>
    simp [supportedVersionListBytes, word32] at ih ⊢
    omega

/-- C6: the Version Negotiation datagram has the long-header bit set in its
first byte with the low seven bits equal to the random byte masked with
0x7F; its version field (bytes 1-4) is the VN marker; bytes starting at
offset 5 are the outbound destination CID slot holding the inbound source
CID as a length byte followed by its bytes; the next slot is the outbound
source CID holding the inbound destination CID; the first advertised
version is the binding random reserved version, followed by exactly the
fixed supported-version list; and the total length is header (6) plus
source CID length plus 1 plus destination CID length plus 4 plus the size
of the supported-version list. -/
theorem versionNegotiation_encoding (sourceCID destCID : List Nat)
    (randomByte verNegMarker reservedVersion : Nat) (supported : List Nat) :
    (buildVersionNegotiationPacket sourceCID destCID randomByte verNegMarker
      reservedVersion supported).length =
      6 + sourceCID.length + 1 + destCID.length + 4 +
        (supportedVersionListBytes supported).length ∧
    (buildVersionNegotiationPacket sourceCID destCID randomByte verNegMarker
      reservedVersion supported).take 1 = [randomByte % 128 + 128] ∧
    ((buildVersionNegotiationPacket sourceCID destCID randomByte verNegMarker
      reservedVersion supported).drop 1).take 4 = word32 verNegMarker ∧
    ((buildVersionNegotiationPacket sourceCID destCID randomByte verNegMarker
      reservedVersion supported).drop 5).take (1 + sourceCID.length) =
      sourceCID.length :: sourceCID ∧
    ((buildVersionNegotiationPacket sourceCID destCID randomByte verNegMarker
      reservedVersion supported).drop (6 + sourceCID.length)).take
        (1 + destCID.length) = destCID.length :: destCID ∧
    ((buildVersionNegotiationPacket sourceCID destCID randomByte verNegMarker
      reservedVersion supported).drop
        (7 + sourceCID.length + destCID.length)).take 4 =
      word32 reservedVersion ∧
    (buildVersionNegotiationPacket sourceCID destCID randomByte verNegMarker
      reservedVersion supported).drop
        (11 + sourceCID.length + destCID.length) =
      supportedVersionListBytes supported := by
  have hw : ∀ v : Nat, (word32 v).length = 4 := fun v => rfl
  refine ⟨?_, ?_, ?_, ?_, ?_, ?_, ?_⟩
  · simp [buildVersionNegotiationPacket, hw]
    omega
  · have h : buildVersionNegotiationPacket sourceCID destCID randomByte
        verNegMarker reservedVersion supported =
        [randomByte % 128 + 128] ++
        (word32 verNegMarker ++ ([sourceCID.length] ++ (sourceCID ++
          ([destCID.length] ++ (destCID ++ (word32 reservedVersion ++
          supportedVersionListBytes supported)))))) := by
      simp [buildVersionNegotiationPacket]
    rw [h, List.take_left' (by simp)]
  · have h : buildVersionNegotiationPacket sourceCID destCID randomByte
        verNegMarker reservedVersion supported =
        [randomByte % 128 + 128] ++
        (word32 verNegMarker ++ ([sourceCID.length] ++ (sourceCID ++
          ([destCID.length] ++ (destCID ++ (word32 reservedVersion ++
          supportedVersionListBytes supported)))))) := by
      simp [buildVersionNegotiationPacket]
    rw [h, List.drop_left' (by simp), List.take_left' (hw verNegMarker)]
  · have h : buildVersionNegotiationPacket sourceCID destCID randomByte
        verNegMarker reservedVersion supported =
        ([randomByte % 128 + 128] ++ word32 verNegMarker) ++
        (([sourceCID.length] ++ sourceCID) ++
          ([destCID.length] ++ (destCID ++ (word32 reservedVersion ++
          supportedVersionListBytes supported)))) := by
      simp [buildVersionNegotiationPacket]
    rw [h, List.drop_left' (by simp [hw]),
      List.take_left' (by simp; omega)]
    rfl
  · have h : buildVersionNegotiationPacket sourceCID destCID randomByte
        verNegMarker reservedVersion supported =
        (([randomByte % 128 + 128] ++ word32 verNegMarker) ++
          ([sourceCID.length] ++ sourceCID)) ++
        (([destCID.length] ++ destCID) ++
          (word32 reservedVersion ++ supportedVersionListBytes supported)) := by
      simp [buildVersionNegotiationPacket]
    rw [h, List.drop_left' (by simp [hw]; omega),
      List.take_left' (by simp; omega)]
    rfl
  · have h : buildVersionNegotiationPacket sourceCID destCID randomByte
        verNegMarker reservedVersion supported =
        ((([randomByte % 128 + 128] ++ word32 verNegMarker) ++
          ([sourceCID.length] ++ sourceCID)) ++
          ([destCID.length] ++ destCID)) ++
        (word32 reservedVersion ++ supportedVersionListBytes supported) := by
      simp [buildVersionNegotiationPacket]
    rw [h, List.drop_left' (by simp [hw]; omega),
      List.take_left' (hw reservedVersion)]
  · have h : buildVersionNegotiationPacket sourceCID destCID randomByte
        verNegMarker reservedVersion supported =
        (((([randomByte % 128 + 128] ++ word32 verNegMarker) ++
          ([sourceCID.length] ++ sourceCID)) ++
          ([destCID.length] ++ destCID)) ++ word32 reservedVersion) ++
        supportedVersionListBytes supported := by
      simp [buildVersionNegotiationPacket]
    rw [h, List.drop_left' (by simp [hw]; omega)]

/-- One tracked stateless operation (QUIC_STATELESS_CONTEXT) as the binding
table and FIFO list see it; IsExpired is represented implicitly: an entry is
in the model list exactly while it is in the table and list and not yet
expired, since ageing removes it from both at the moment IsExpired is set. -/
structure StatelessContextModel where
  creationTimeMs : Nat
  remoteAddress : Nat
  isProcessed : Bool
  deriving DecidableEq, Repr

/-- QuicTimeDiff32: unsigned 32-bit difference (t2 - t1) mod 2^32. -/
def quicTimeDiff32 (t1 t2 : Nat) : Nat :=
  (t2 % 4294967296 + 4294967296 - t1 % 4294967296) % 4294967296

/-- Ageing loop of QuicBindingCreateStatelessOperation (binding.c lines
487-518): entries are removed from the head of the FIFO while their age has
reached the expiration; the loop breaks at the first young entry. -/
def ageOutStatelessOperations (expirationMs timeMs : Nat)
    (opers : List StatelessContextModel) : List StatelessContextModel :=
  opers.dropWhile
    (fun c => expirationMs ≤ quicTimeDiff32 c.creationTimeMs timeMs)

/-- Embedding of QuicBindingCreateStatelessOperation (binding.c lines
469-587) acting on the FIFO list (the hash table holds the same entries
keyed by remote-address hash, and StatelessOperCount mirrors the list
length). After ageing: if the count reached the maximum the datagram is
dropped; if an entry with an equal remote address exists (found through its
hash bucket, which contains every equal address) the datagram is dropped;
if the pool allocation fails the datagram is dropped; otherwise the new
context is inserted at the tail. Returns the new list and whether a context
was created. The maximum and expiration are header constants taken as
parameters. -/
def quicBindingCreateStatelessOperation (maxOperations expirationMs : Nat)
    (opers : List StatelessContextModel) (timeMs remoteAddress : Nat)
    (allocOk : Bool) : List StatelessContextModel × Bool :=
  let aged := ageOutStatelessOperations expirationMs timeMs opers
  if maxOperations ≤ aged.length then
    (aged, false)
  else if aged.any (fun c => decide (c.remoteAddress = remoteAddress)) then
    (aged, false)
  else if ¬ allocOk then
    (aged, false)
  else
    (aged ++ [⟨timeMs, remoteAddress, false⟩], true)

/-- Embedding of the table effect of QuicBindingReleaseStatelessOperation
(binding.c lines 841-871): the context IsProcessed flag is set; the entry
itself stays in the table and list (removal happens in the ageing loop).
A release of a context already aged out of the table (idx out of range)
leaves the table unchanged. -/
def quicBindingReleaseStatelessOperation (opers : List StatelessContextModel)
    (idx : Nat) : List StatelessContextModel :=
  match opers[idx]? with
  | some c => opers.set idx ⟨c.creationTimeMs, c.remoteAddress, true⟩
  | none => opers

/-- An operation on the stateless tracking structures of a binding. -/
inductive StatelessTableOp where
  | create (timeMs remoteAddress : Nat) (allocOk : Bool)
  | release (idx : Nat)
  deriving DecidableEq, Repr

/-- One step of the stateless-table state machine. -/
def statelessTableStep (maxOperations expirationMs : Nat)
    (opers : List StatelessContextModel) (op : StatelessTableOp) :
    List StatelessContextModel :=
  match op with
  | StatelessTableOp.create t a ok =>
    (quicBindingCreateStatelessOperation maxOperations expirationMs
      opers t a ok).1
  | StatelessTableOp.release idx =>
    quicBindingReleaseStatelessOperation opers idx

/-- The stateless table reached from a fresh binding (empty table) by a
sequence of create and release calls. -/
def runStatelessTableOps (maxOperations expirationMs : Nat)
    (ops : List StatelessTableOp) : List StatelessContextModel :=
  ops.foldl (statelessTableStep maxOperations expirationMs) []

/-- Invariant of the stateless tracking structures: the count never exceeds
the maximum and no two entries share a remote address. -/
def statelessTableInvariant (maxOperations : Nat)
    (opers : List StatelessContextModel) : Prop :=
  opers.length ≤ maxOperations ∧
  (opers.map StatelessContextModel.remoteAddress).Nodup

/-- Helper: ageing keeps a sublist of the entries. -/
theorem ageOut_sublist (expirationMs timeMs : Nat)
    (opers : List StatelessContextModel) :
    (ageOutStatelessOperations expirationMs timeMs opers).Sublist opers :=
  List.dropWhile_sublist _

/-- Helper: setting the processed flag of an entry changes neither the
length nor the remote addresses of the table. -/
theorem release_preserves_addresses (opers : List StatelessContextModel)
    (idx : Nat) :
    (quicBindingReleaseStatelessOperation opers idx).map
        StatelessContextModel.remoteAddress =
      opers.map StatelessContextModel.remoteAddress := by
  induction opers generalizing idx with
  | nil => rfl
  | cons d rest ih =>
    cases idx with
    | zero =>
      simp [quicBindingReleaseStatelessOperation]
    | succ n =>
      simp only [quicBindingReleaseStatelessOperation,
        List.getElem?_cons_succ] at ih ⊢
      cases hget : rest[n]? with
      | none => simp [hget]
      | some c =>
        have hn := ih n
        simp only [hget] at hn ⊢
        simpa using hn

/-- Helper: each step preserves the stateless-table invariant. -/
theorem statelessTableStep_preserves (maxOperations expirationMs : Nat)
    (opers : List StatelessContextModel) (op : StatelessTableOp)
    (hinv : statelessTableInvariant maxOperations opers) :
    statelessTableInvariant maxOperations
      (statelessTableStep maxOperations expirationMs opers op) := by
  obtain ⟨hlen, hnodup⟩ := hinv
  cases op with
  | release idx =>
    have hmap := release_preserves_addresses opers idx
    have hl : (quicBindingReleaseStatelessOperation opers idx).length =
        opers.length := by
      have := congrArg List.length hmap
      simpa using this
    refine ⟨?_, ?_⟩
    · simp only [statelessTableStep]
      omega
    · simp only [statelessTableStep]
      rw [hmap]
      exact hnodup
  | create t a ok =>
    have hsub := ageOut_sublist expirationMs t opers
    have hlenA : (ageOutStatelessOperations expirationMs t opers).length ≤
        opers.length := hsub.length_le
    have hnodupA : ((ageOutStatelessOperations expirationMs t opers).map
        StatelessContextModel.remoteAddress).Nodup :=
      List.Nodup.sublist (hsub.map _) hnodup
    simp only [statelessTableStep, quicBindingCreateStatelessOperation]
    by_cases hmax : maxOperations ≤
        (ageOutStatelessOperations expirationMs t opers).length
    · simpa [hmax] using ⟨by omega, hnodupA⟩
    · by_cases hdup : (ageOutStatelessOperations expirationMs t opers).any
          (fun c => decide (c.remoteAddress = a))
      · simpa [hmax, hdup] using ⟨by omega, hnodupA⟩
      · by_cases hok : ok
        · have hnotmem : a ∉ (ageOutStatelessOperations expirationMs t
              opers).map StatelessContextModel.remoteAddress := by
            intro hmem
            rcases List.mem_map.mp hmem with ⟨c, hc, hca⟩
            exact hdup (List.any_eq_true.mpr ⟨c, hc, by simp [hca]⟩)
          refine ⟨?_, ?_⟩
          · simpa [hmax, hdup, hok] using by omega
          · simp only [hmax, hdup, hok]
            simp only [if_false, if_true, Bool.not_true, not_false_eq_true,
              List.map_append]
            simp [List.nodup_append, hnodupA, hnotmem]
        · simpa [hmax, hdup, hok] using ⟨by omega, hnodupA⟩

/-- C5: across any sequence of create and release calls starting from a
fresh binding, the stateless-operation count never exceeds the maximum and
the table never contains two (non-expired) entries with equal remote
addresses; moreover an insert attempt finding the count at the maximum
after ageing drops the datagram, returning the aged table unchanged with no
context allocated. -/
theorem statelessTable_invariant (maxOperations expirationMs : Nat)
    (ops : List StatelessTableOp) :
    statelessTableInvariant maxOperations
      (runStatelessTableOps maxOperations expirationMs ops) ∧
    (∀ timeMs remoteAddress allocOk,
      maxOperations ≤ (ageOutStatelessOperations expirationMs timeMs
        (runStatelessTableOps maxOperations expirationMs ops)).length →
      quicBindingCreateStatelessOperation maxOperations expirationMs
        (runStatelessTableOps maxOperations expirationMs ops) timeMs
        remoteAddress allocOk =
      (ageOutStatelessOperations expirationMs timeMs
        (runStatelessTableOps maxOperations expirationMs ops), false)) := by
  constructor
  · have hgen : ∀ (l : List StatelessTableOp)
        (st : List StatelessContextModel),
        statelessTableInvariant maxOperations st →
        statelessTableInvariant maxOperations
          (l.foldl (statelessTableStep maxOperations expirationMs) st) := by
      intro l
      induction l with
      | nil => intro st h; exact h
      | cons op rest ih =>
        intro st h
        exact ih _ (statelessTableStep_preserves maxOperations expirationMs
          st op h)
    exact hgen ops [] ⟨by simp, by simp⟩
  · intro timeMs remoteAddress allocOk hfull
    simp [quicBindingCreateStatelessOperation, hfull]

/-- Witness for the stateless-table theorem: two creates fill a table with
maximum 2; a third create with a fresh remote address at the same time is
dropped and leaves the aged table unchanged. -/
theorem statelessTable_invariant_witness :
    statelessTableInvariant 2
      (runStatelessTableOps 2 100
        [StatelessTableOp.create 0 1 true, StatelessTableOp.create 0 2 true]) ∧
    quicBindingCreateStatelessOperation 2 100
      (runStatelessTableOps 2 100
        [StatelessTableOp.create 0 1 true, StatelessTableOp.create 0 2 true])
      0 3 true =
    (ageOutStatelessOperations 100 0
      (runStatelessTableOps 2 100
        [StatelessTableOp.create 0 1 true, StatelessTableOp.create 0 2 true]),
     false) := by
  have h := statelessTable_invariant 2 100
    [StatelessTableOp.create 0 1 true, StatelessTableOp.create 0 2 true]
  exact ⟨h.1, h.2 0 3 true (by decide)⟩

/-- A received datagram as the receive loop sees it after preprocessing:
its destination CID bytes, whether QuicPacketIsHandshake holds for it, and
whether QuicBindingPreprocessPacket accepted it (rejected datagrams go to
the release chain and never enter a connection subchain). -/
structure RecvPacketModel where
  destCID : List Nat
  isHandshake : Bool
  accepted : Bool
  deriving DecidableEq, Repr

/-- State of the splitting loop of QuicBindingReceive: the current
connection chain is hsPart ++ dataPart, where hsPart ends at
ConnectionChainTail (the handshake insertion point) and dataPart ends at
ConnectionChainDataTail; delivered collects the subchains already passed to
QuicBindingDeliverPackets. -/
structure RecvState where
  hsPart : List RecvPacketModel
  dataPart : List RecvPacketModel
  delivered : List (List RecvPacketModel)
  deriving DecidableEq, Repr

/-- Chain-split test of QuicBindingReceive (binding.c lines 1355-1370): on a
non-exclusive binding, a packet whose destination CID differs in length or
bytes from the head of the current connection chain causes the chain to be
delivered to QuicBindingDeliverPackets and a fresh empty chain started;
otherwise (or on an exclusive binding, or an empty chain) nothing happens. -/
def flushOnCidMismatch (exclusive : Bool) (st : RecvState)
    (p : RecvPacketModel) : RecvState :=
  match (st.hsPart ++ st.dataPart).head? with
  | none => st
  | some h =>
    if ¬ exclusive ∧ p.destCID ≠ h.destCID then
      ⟨[], [], st.delivered ++ [st.hsPart ++ st.dataPart]⟩
    else
      st

/-- Insertion step of QuicBindingReceive (binding.c lines 1378-1398): a
handshake packet is linked in at ConnectionChainTail, i.e. behind the last
handshake packet and before every data packet; a data packet is appended at
ConnectionChainDataTail, the overall tail. -/
def insertPacketInChain (st : RecvState) (p : RecvPacketModel) : RecvState :=
  if p.isHandshake then
    ⟨st.hsPart ++ [p], st.dataPart, st.delivered⟩
  else
    ⟨st.hsPart, st.dataPart ++ [p], st.delivered⟩

/-- One iteration of the while loop of QuicBindingReceive (binding.c lines
1320-1399): preprocess-rejected datagrams leave the chain state unchanged
(they go to the release chain); accepted ones first run the mismatch flush
and are then inserted into the chain. -/
def receiveStep (exclusive : Bool) (st : RecvState) (p : RecvPacketModel) :
    RecvState :=
  if ¬ p.accepted then
    st
  else
    insertPacketInChain (flushOnCidMismatch exclusive st p) p

/-- Final flush of QuicBindingReceive (binding.c lines 1401-1409): the last
chain, if non-empty, is also delivered. -/
def finalFlush (st : RecvState) : List (List RecvPacketModel) :=
  if st.hsPart ++ st.dataPart = [] then
    st.delivered
  else
    st.delivered ++ [st.hsPart ++ st.dataPart]

/-- Embedding of QuicBindingReceive (binding.c lines 1288-1414) restricted
to its chain-splitting effect: the list of subchains passed to
QuicBindingDeliverPackets, in order. -/
def quicBindingReceive (exclusive : Bool)
    (datagrams : List RecvPacketModel) : List (List RecvPacketModel) :=
  finalFlush (datagrams.foldl (receiveStep exclusive) ⟨[], [], []⟩)

/-- A well-formed delivered subchain relative to the arrival order: all
packets share one destination CID; the chain splits into a handshake part
followed by a data part; and each part is a sublist of the input, i.e. its
packets appear in arrival (FIFO) order. -/
def goodSubchain (input : List RecvPacketModel)
    (c : List RecvPacketModel) : Prop :=
  (∀ p ∈ c, ∀ q ∈ c, p.destCID = q.destCID) ∧
  ∃ hs ds, c = hs ++ ds ∧
    (∀ p ∈ hs, p.isHandshake = true) ∧
    (∀ p ∈ ds, p.isHandshake = false) ∧
    hs.Sublist input ∧ ds.Sublist input

/-- Invariant of the splitting loop after some prefix of the input has been
processed. -/
def recvInvariant (processed : List RecvPacketModel) (st : RecvState) : Prop :=
  (∀ p ∈ st.hsPart, p.isHandshake = true) ∧
  (∀ p ∈ st.dataPart, p.isHandshake = false) ∧
  (∀ p ∈ st.hsPart ++ st.dataPart, ∀ q ∈ st.hsPart ++ st.dataPart,
    p.destCID = q.destCID) ∧
  st.hsPart.Sublist processed ∧
  st.dataPart.Sublist processed ∧
  (∀ c ∈ st.delivered, goodSubchain processed c)

/-- Helper: a good subchain for a prefix is good for any extension. -/
theorem goodSubchain_mono (pre post : List RecvPacketModel)
    (c : List RecvPacketModel) (h : goodSubchain pre c) :
    goodSubchain (pre ++ post) c := by
  obtain ⟨hcid, hs, ds, hsplit, hhs, hds, hsub1, hsub2⟩ := h
  exact ⟨hcid, hs, ds, hsplit, hhs, hds,
    hsub1.trans (List.sublist_append_left pre post),
    hsub2.trans (List.sublist_append_left pre post)⟩

/-- Helper: the invariant for a prefix holds for any extension. -/
theorem recvInvariant_mono (pre post : List RecvPacketModel)
    (st : RecvState) (h : recvInvariant pre st) :
    recvInvariant (pre ++ post) st := by
  obtain ⟨hhs, hds, hcid, hsub1, hsub2, hdel⟩ := h
  exact ⟨hhs, hds, hcid,
    hsub1.trans (List.sublist_append_left pre post),
    hsub2.trans (List.sublist_append_left pre post),
    fun c hc => goodSubchain_mono pre post c (hdel c hc)⟩

/-- Helper: the mismatch flush preserves the invariant and leaves a chain
whose members all carry the destination CID of the incoming packet. -/
theorem flushOnCidMismatch_inv (pre : List RecvPacketModel)
    (st : RecvState) (p : RecvPacketModel)
    (hinv : recvInvariant pre st) :
    recvInvariant pre (flushOnCidMismatch false st p) ∧
    ∀ q ∈ (flushOnCidMismatch false st p).hsPart ++
        (flushOnCidMismatch false st p).dataPart,
      p.destCID = q.destCID := by
  obtain ⟨hhs, hds, hcid, hsub1, hsub2, hdel⟩ := hinv
  unfold flushOnCidMismatch
  cases hchain : st.hsPart ++ st.dataPart with
  | nil =>
    simp only [hchain, List.head?_nil]
    refine ⟨⟨hhs, hds, hcid, hsub1, hsub2, hdel⟩, ?_⟩
    intro q hq
    exact absurd hq (List.not_mem_nil q)
  | cons h rest =>
    simp only [hchain, List.head?_cons]
    by_cases hmis : p.destCID ≠ h.destCID
    · rw [if_pos ⟨by simp, hmis⟩]
      refine ⟨⟨by simp, by simp, by simp, by simp, by simp, ?_⟩, by simp⟩
      intro c hc
      simp only [List.mem_append, List.mem_singleton] at hc
      rcases hc with hc | hc
      · exact hdel c hc
      · rw [hc, ← hchain]
        exact ⟨hcid, st.hsPart, st.dataPart, rfl, hhs, hds, hsub1, hsub2⟩
    · rw [if_neg (fun hco => hmis hco.2)]
      have hpeq : p.destCID = h.destCID := by
        by_contra hne
        exact hmis hne
      refine ⟨⟨hhs, hds, hcid, hsub1, hsub2, hdel⟩, ?_⟩
      intro q hq
      rw [hpeq]
      exact hcid h (by rw [hchain]; exact List.mem_cons_self h rest) q hq

/-- Helper: inserting a packet that agrees with every chain member on the
destination CID preserves the invariant for the extended input. -/
theorem insertPacketInChain_inv (pre : List RecvPacketModel)
    (st : RecvState) (p : RecvPacketModel)
    (hinv : recvInvariant pre st)
    (hagree : ∀ q ∈ st.hsPart ++ st.dataPart, p.destCID = q.destCID) :
    recvInvariant (pre ++ [p]) (insertPacketInChain st p) := by
  obtain ⟨hhs, hds, hcid, hsub1, hsub2, hdel⟩ := hinv
  unfold insertPacketInChain
  by_cases hp : p.isHandshake
  · rw [if_pos hp]
    have hagreeNew : ∀ q ∈ (st.hsPart ++ [p]) ++ st.dataPart,
        p.destCID = q.destCID := by
      intro q hq
      simp only [List.mem_append, List.mem_singleton] at hq
      rcases hq with (hq | hq) | hq
      · exact hagree q (List.mem_append_left _ hq)
      · rw [hq]
      · exact hagree q (List.mem_append_right _ hq)
    refine ⟨?_, hds, ?_, ?_, ?_, ?_⟩
    · intro q hq
      simp only [List.mem_append, List.mem_singleton] at hq
      rcases hq with hq | hq
      · exact hhs q hq
      · rw [hq]; exact hp
    · intro q hq r hr
      exact (hagreeNew q hq).symm.trans (hagreeNew r hr)
    · exact hsub1.append (List.Sublist.refl [p])
    · exact hsub2.trans (List.sublist_append_left pre [p])
    · intro c hc
      exact goodSubchain_mono pre [p] c (hdel c hc)
  · rw [if_neg hp]
    have hagreeNew : ∀ q ∈ st.hsPart ++ (st.dataPart ++ [p]),
        p.destCID = q.destCID := by
      intro q hq
      simp only [List.mem_append, List.mem_singleton] at hq
      rcases hq with hq | (hq | hq)
      · exact hagree q (List.mem_append_left _ hq)
      · exact hagree q (List.mem_append_right _ hq)
      · rw [hq]
    refine ⟨hhs, ?_, ?_, ?_, ?_, ?_⟩
    · intro q hq
      simp only [List.mem_append, List.mem_singleton] at hq
      rcases hq with hq | hq
      · exact hds q hq
      · rw [hq]
        exact Bool.not_eq_true p.isHandshake |>.mp hp
    · intro q hq r hr
      exact (hagreeNew q hq).symm.trans (hagreeNew r hr)
    · exact hsub1.trans (List.sublist_append_left pre [p])
    · exact hsub2.append (List.Sublist.refl [p])
    · intro c hc
      exact goodSubchain_mono pre [p] c (hdel c hc)

/-- Helper: one step of the receive loop on a non-exclusive binding
preserves the invariant. -/
theorem receiveStep_preserves (pre : List RecvPacketModel)
    (st : RecvState) (p : RecvPacketModel)
    (hinv : recvInvariant pre st) :
    recvInvariant (pre ++ [p]) (receiveStep false st p) := by
  by_cases hacc : p.accepted
  · have hf := flushOnCidMismatch_inv pre st p hinv
    have hins := insertPacketInChain_inv pre _ p hf.1 hf.2
    have hstep : receiveStep false st p =
        insertPacketInChain (flushOnCidMismatch false st p) p := by
      simp [receiveStep, hacc]
    rw [hstep]
    exact hins
  · have hacc0 : p.accepted = false := by
      cases h : p.accepted
      · rfl
      · exact absurd h hacc
    have hstep : receiveStep false st p = st := by
      simp [receiveStep, hacc0]
    rw [hstep]
    exact recvInvariant_mono pre [p] st hinv

/-- C3: on a non-exclusive binding, every subchain that QuicBindingReceive
passes to QuicBindingDeliverPackets consists of packets with equal
destination CID bytes, splits into handshake packets followed by
non-handshake packets, and within each of the two classes the packets keep
their original arrival (FIFO) order, expressed as each class being a
sublist of the input chain. -/
theorem receive_subchains_good (datagrams : List RecvPacketModel)
    (c : List RecvPacketModel)
    (hc : c ∈ quicBindingReceive false datagrams) :
    goodSubchain datagrams c := by
  have hgen : ∀ (l pre : List RecvPacketModel) (st : RecvState),
      recvInvariant pre st →
      recvInvariant (pre ++ l) (l.foldl (receiveStep false) st) := by
    intro l
    induction l with
    | nil =>
      intro pre st h
      simpa using h
    | cons q rest ih =>
      intro pre st h
      have h1 := receiveStep_preserves pre st q h
      have h2 := ih (pre ++ [q]) _ h1
      simpa [List.append_assoc] using h2
  have hfinal : recvInvariant datagrams
      (datagrams.foldl (receiveStep false) ⟨[], [], []⟩) := by
    have h0 : recvInvariant [] (⟨[], [], []⟩ : RecvState) := by
      refine ⟨by simp, by simp, by simp, by simp, by simp, by simp⟩
    simpa using hgen datagrams [] _ h0
  obtain ⟨hhs, hds, hcid, hsub1, hsub2, hdel⟩ := hfinal
  unfold quicBindingReceive finalFlush at hc
  by_cases hempty : (datagrams.foldl (receiveStep false)
      ⟨[], [], []⟩).hsPart ++ (datagrams.foldl (receiveStep false)
      ⟨[], [], []⟩).dataPart = []
  · rw [if_pos hempty] at hc
    exact hdel c hc
  · rw [if_neg hempty] at hc
    simp only [List.mem_append, List.mem_singleton] at hc
    rcases hc with hc | hc
    · exact hdel c hc
    · rw [hc]
      exact ⟨hcid, _, _, rfl, hhs, hds, hsub1, hsub2⟩

/-- Witness for the chain-splitting theorem: three accepted datagrams, a
data packet and a handshake packet for CID 1 then a data packet for CID 2;
the first delivered subchain is the handshake packet followed by the data
packet for CID 1. -/
theorem receive_subchains_good_witness :
    goodSubchain
      [⟨[1], false, true⟩, ⟨[1], true, true⟩, ⟨[2], false, true⟩]
      [⟨[1], true, true⟩, ⟨[1], false, true⟩] :=
  receive_subchains_good
    [⟨[1], false, true⟩, ⟨[1], true, true⟩, ⟨[2], false, true⟩]
    [⟨[1], true, true⟩, ⟨[1], false, true⟩]
    (by decide)

/-- Family sort key of a listener: families are ordered descending (inet6,
inet, unspec), so the ascending key is 2 minus the family code. -/
def listenerFamKey (l : QuicListener) : Nat :=
  2 - l.family.code

/-- Wildcard sort key: specific addresses (0) before wildcards (1). -/
def listenerWcKey (l : QuicListener) : Nat :=
  if l.wildCard then 1 else 0

/-- Listener a is sorted strictly before listener b: lexicographically by
family (descending), wildcardness (specific first), then insertion id (ids
are assigned in registration order, so this is insertion order within each
family/wildcard bucket). -/
def listenerBefore (a b : QuicListener) : Prop :=
  listenerFamKey a < listenerFamKey b ∨
  (listenerFamKey a = listenerFamKey b ∧
    (listenerWcKey a < listenerWcKey b ∨
      (listenerWcKey a = listenerWcKey b ∧ a.id < b.id)))

/-- Two listeners collide as duplicates: equal family, equal wildcardness,
equal IP when the family is not unspec, and equal ALPN bytes. -/
def sameListenerKey (a b : QuicListener) : Prop :=
  a.family = b.family ∧
  a.wildCard = b.wildCard ∧
  (a.family ≠ AddressFamily.unspec → a.ip = b.ip) ∧
  a.alpn = b.alpn

/-- The pair relation the registry maintains between any earlier and any
later entry. -/
def listenerOrdered (a b : QuicListener) : Prop :=
  listenerBefore a b ∧ ¬ sameListenerKey a b

/-- The scan loop of QuicBindingRegisterListener (binding.c lines 272-308):
walks the sorted list; breaks (returning the insertion index, counted from
the scan start) when the new family is greater than the existing one or, in
the same family, when the new listener is specific and the existing one a
wildcard; skips entries of other families or wildcardness or (for non-unspec
families) other IPs; returns none on an exact family/wildcard/IP/ALPN
duplicate; reaching the end of the list yields insertion at the tail. -/
def regScan (n : QuicListener) : List QuicListener → Option Nat
  | [] => some 0
  | e :: rest =>
    if e.family.code < n.family.code then
      some 0
    else if n.family ≠ e.family then
      (regScan n rest).map (· + 1)
    else if ¬ n.wildCard ∧ e.wildCard then
      some 0
    else if n.wildCard ≠ e.wildCard then
      (regScan n rest).map (· + 1)
    else if n.family ≠ AddressFamily.unspec ∧ n.ip ≠ e.ip then
      (regScan n rest).map (· + 1)
    else if n.alpn = e.alpn then
      none
    else
      (regScan n rest).map (· + 1)

/-- Embedding of QuicBindingRegisterListener (binding.c lines 246-338): a
duplicate is rejected leaving the list unchanged; otherwise the listener is
inserted at the scan position (before the break entry, or at the tail).
When the list was previously empty and QuicLookupMaximizePartitioning
(external, parameter maximizeOk) fails, the listener is unregistered again
and registration fails. -/
def quicBindingRegisterListener (ls : List QuicListener) (n : QuicListener)
    (maximizeOk : Bool) : List QuicListener × Bool :=
  match regScan n ls with
  | none => (ls, false)
  | some k =>
    if ls.isEmpty ∧ ¬ maximizeOk then
      (ls, false)
    else
      (List.insertIdx k n ls, true)

/-- Embedding of QuicBindingUnregisterListener (binding.c lines 409-419):
the named listener node is unlinked from the list. -/
def quicBindingUnregisterListener (ls : List QuicListener) (ident : Nat) :
    List QuicListener :=
  ls.eraseP (fun l => decide (l.id = ident))

/-- An operation on the listener registry of a binding. -/
inductive ListenerRegOp where
  | register (family : AddressFamily) (wildCard : Bool) (ip : Nat)
      (alpn : List Nat) (maximizeOk : Bool)
  | unregister (ident : Nat)

/-- One registry step: registrations receive a fresh increasing id, which
models both node identity and insertion order. -/
def listenerRegStep (st : List QuicListener × Nat) (op : ListenerRegOp) :
    List QuicListener × Nat :=
  match op with
  | ListenerRegOp.register f w ip alpn mo =>
    ((quicBindingRegisterListener st.1 ⟨f, w, ip, alpn, true, st.2⟩ mo).1,
      st.2 + 1)
  | ListenerRegOp.unregister ident =>
    (quicBindingUnregisterListener st.1 ident, st.2)

/-- The listener registry reached from an empty binding by a sequence of
register and unregister calls, together with the next fresh id. -/
def runListenerRegOps (ops : List ListenerRegOp) : List QuicListener × Nat :=
  ops.foldl listenerRegStep ([], 0)

/-- Well-formedness of the registry: every earlier entry is strictly before
every later entry (sorted, no duplicate keys) and every id is below the
fresh-id counter. -/
def listenerRegistryWF (st : List QuicListener × Nat) : Prop :=
  List.Pairwise listenerOrdered st.1 ∧ ∀ l ∈ st.1, l.id < st.2

/-- Helper: family codes are at most two. -/
theorem famCode_le_two (f : AddressFamily) : f.code ≤ 2 := by
  cases f <;> simp [AddressFamily.code]

/-- Helper: the family code determines the family. -/
theorem famCode_inj (a b : AddressFamily) (h : a.code = b.code) : a = b := by
  cases a <;> cases b <;> first | rfl | simp [AddressFamily.code] at h

/-- Helper: listenerBefore is transitive. -/
theorem listenerBefore_trans (a b c : QuicListener)
    (h1 : listenerBefore a b) (h2 : listenerBefore b c) :
    listenerBefore a c := by
  unfold listenerBefore at h1 h2 ⊢
  omega

/-- Helper: duplicates agree on both bucket keys. -/
theorem sameListenerKey_bucket (a b : QuicListener)
    (h : sameListenerKey a b) :
    listenerFamKey a = listenerFamKey b ∧
    listenerWcKey a = listenerWcKey b := by
  obtain ⟨hf, hw, _, _⟩ := h
  constructor
  · unfold listenerFamKey
    rw [hf]
  · unfold listenerWcKey
    rw [hw]

/-- Helper: inserting at index zero is prepending. -/
theorem insertIdx_zero_eq (a : QuicListener) (l : List QuicListener) :
    List.insertIdx 0 a l = a :: l := rfl

/-- Helper: inserting past the head walks the head. -/
theorem insertIdx_succ_cons_eq (k : Nat) (a b : QuicListener)
    (l : List QuicListener) :
    List.insertIdx (k + 1) a (b :: l) = b :: List.insertIdx k a l := rfl

/-- Helper: members of an insertion are the new element or old members. -/
theorem mem_insertIdx_elim (m a : QuicListener) (k : Nat)
    (l : List QuicListener) (h : m ∈ List.insertIdx k a l) :
    m = a ∨ m ∈ l := by
  induction l generalizing k with
  | nil =>
    cases k with
    | zero =>
      simp [insertIdx_zero_eq] at h
      exact Or.inl h
    | succ j =>
      simp [List.insertIdx] at h
  | cons b' rest ih =>
    cases k with
    | zero =>
      rw [insertIdx_zero_eq] at h
      rcases List.mem_cons.mp h with h | h
      · exact Or.inl h
      · exact Or.inr h
    | succ j =>
      rw [insertIdx_succ_cons_eq] at h
      rcases List.mem_cons.mp h with h | h
      · exact Or.inr (by simp [h])
      · rcases ih j h with h | h
        · exact Or.inl h
        · exact Or.inr (by simp [h])

/-- Helper: a strictly smaller bucket key gives listenerBefore. -/
theorem listenerBefore_of_bucket (a b : QuicListener)
    (h : listenerFamKey a < listenerFamKey b ∨
      (listenerFamKey a = listenerFamKey b ∧
        listenerWcKey a < listenerWcKey b)) :
    listenerBefore a b := by
  unfold listenerBefore
  omega

/-- Helper: nothing sorted after a strictly larger bucket can share the
bucket of the smaller side, so it cannot be a duplicate of it. -/
theorem not_sameKey_of_strict_bucket (a e m : QuicListener)
    (hstrict : listenerFamKey a < listenerFamKey e ∨
      (listenerFamKey a = listenerFamKey e ∧
        listenerWcKey a < listenerWcKey e))
    (hbem : listenerBefore e m) : ¬ sameListenerKey a m := by
  intro hs
  obtain ⟨hbk1, hbk2⟩ := sameListenerKey_bucket a m hs
  unfold listenerBefore at hbem
  omega

/-- Helper: equal families give equal family keys. -/
theorem famKey_congr (a b : QuicListener) (h : a.family = b.family) :
    listenerFamKey a = listenerFamKey b := by
  unfold listenerFamKey
  rw [h]

/-- Helper: a smaller family code means a larger family key. -/
theorem famKey_lt_of_code_lt (a b : QuicListener)
    (h : b.family.code < a.family.code) :
    listenerFamKey a < listenerFamKey b := by
  unfold listenerFamKey
  have h1 := famCode_le_two a.family
  have h2 := famCode_le_two b.family
  omega

/-- Helper: wildcard key of a non-wildcard listener. -/
theorem wcKey_of_false (l : QuicListener) (h : l.wildCard = false) :
    listenerWcKey l = 0 := by
  simp [listenerWcKey, h]

/-- Helper: wildcard key of a wildcard listener. -/
theorem wcKey_of_true (l : QuicListener) (h : l.wildCard = true) :
    listenerWcKey l = 1 := by
  simp [listenerWcKey, h]

/-- Helper: same bucket and a smaller id gives listenerBefore. -/
theorem listenerBefore_of_id (a b : QuicListener)
    (hf : listenerFamKey a = listenerFamKey b)
    (hw : listenerWcKey a = listenerWcKey b)
    (hid : a.id < b.id) : listenerBefore a b := by
  unfold listenerBefore
  omega

/-- Helper: a successful scan position yields a sorted, duplicate-free
insertion, provided the list was well formed and the new listener has a
fresh maximal id. -/
theorem regScan_insert_sorted (n : QuicListener) (ls : List QuicListener)
    (hpair : List.Pairwise listenerOrdered ls)
    (hfresh : ∀ l ∈ ls, l.id < n.id)
    (k : Nat) (hscan : regScan n ls = some k) :
    List.Pairwise listenerOrdered (List.insertIdx k n ls) := by
  induction ls generalizing k with
  | nil =>
    have hk : k = 0 := by
      simp [regScan] at hscan
      omega
    subst hk
    rw [insertIdx_zero_eq]
    exact List.pairwise_singleton _ _
  | cons e rest ih =>
    obtain ⟨hhead, htail⟩ := List.pairwise_cons.mp hpair
    have hfreshRest : ∀ l ∈ rest, l.id < n.id :=
      fun l hl => hfresh l (by simp [hl])
    have hfreshE : e.id < n.id := hfresh e (by simp)
    unfold regScan at hscan
    by_cases h1 : e.family.code < n.family.code
    · -- break: end of possible family matches
      rw [if_pos h1] at hscan
      have hk : k = 0 := by
        simpa using hscan.symm
      subst hk
      rw [insertIdx_zero_eq]
      refine List.pairwise_cons.mpr ⟨?_, hpair⟩
      have hstrict : listenerFamKey n < listenerFamKey e ∨
          (listenerFamKey n = listenerFamKey e ∧
            listenerWcKey n < listenerWcKey e) :=
        Or.inl (famKey_lt_of_code_lt n e h1)
      intro m hm
      rcases List.mem_cons.mp hm with hm | hm
      · subst hm
        refine ⟨listenerBefore_of_bucket n m hstrict, ?_⟩
        intro hs
        obtain ⟨hbk1, _⟩ := sameListenerKey_bucket n m hs
        rcases hstrict with h | h
        · omega
        · omega
      · obtain ⟨hbem, _⟩ := hhead m hm
        exact ⟨listenerBefore_trans n e m
            (listenerBefore_of_bucket n e hstrict) hbem,
          not_sameKey_of_strict_bucket n e m hstrict hbem⟩
    · rw [if_neg h1] at hscan
      by_cases h2 : n.family ≠ e.family
      · -- continue: different family
        rw [if_pos h2] at hscan
        cases hrs : regScan n rest with
        | none =>
          rw [hrs] at hscan
          simp at hscan
        | some j =>
          rw [hrs] at hscan
          simp at hscan
          have hk : k = j + 1 := hscan.symm
          subst hk
          rw [insertIdx_succ_cons_eq]
          refine List.pairwise_cons.mpr ⟨?_, ih htail hfreshRest j hrs⟩
          intro m hm
          rcases mem_insertIdx_elim m n j rest hm with hm | hm
          · subst hm
            have hcode : m.family.code < e.family.code := by
              have hne : m.family.code ≠ e.family.code :=
                fun hc => h2 (famCode_inj _ _ hc)
              omega
            refine ⟨listenerBefore_of_bucket e m
              (Or.inl (famKey_lt_of_code_lt e m hcode)), ?_⟩
            intro hs
            exact h2 hs.1.symm
          · exact hhead m hm
      · have h2eq : n.family = e.family := by
          by_contra hne
          exact h2 hne
        rw [if_neg h2] at hscan
        have hfeq : listenerFamKey n = listenerFamKey e :=
          famKey_congr n e h2eq
        by_cases h3 : ¬ n.wildCard ∧ e.wildCard
        · -- break: end of specific address matches
          rw [if_pos h3] at hscan
          have hk : k = 0 := by
            simpa using hscan.symm
          subst hk
          rw [insertIdx_zero_eq]
          refine List.pairwise_cons.mpr ⟨?_, hpair⟩
          have hwcn : listenerWcKey n = 0 :=
            wcKey_of_false n (by
              cases hn : n.wildCard
              · rfl
              · exact absurd hn h3.1)
          have hwce : listenerWcKey e = 1 := wcKey_of_true e h3.2
          have hstrict : listenerFamKey n < listenerFamKey e ∨
              (listenerFamKey n = listenerFamKey e ∧
                listenerWcKey n < listenerWcKey e) :=
            Or.inr ⟨hfeq, by omega⟩
          intro m hm
          rcases List.mem_cons.mp hm with hm | hm
          · subst hm
            refine ⟨listenerBefore_of_bucket n m hstrict, ?_⟩
            intro hs
            obtain ⟨hbk1, hbk2⟩ := sameListenerKey_bucket n m hs
            omega
          · obtain ⟨hbem, _⟩ := hhead m hm
            exact ⟨listenerBefore_trans n e m
                (listenerBefore_of_bucket n e hstrict) hbem,
              not_sameKey_of_strict_bucket n e m hstrict hbem⟩
        · rw [if_neg h3] at hscan
          by_cases h4 : n.wildCard ≠ e.wildCard
          · -- continue: different wildcardness (new wildcard, existing not)
            rw [if_pos h4] at hscan
            have hnwc : n.wildCard = true := by
              cases hn : n.wildCard
              · exfalso
                cases he : e.wildCard
                · exact h4 (hn.trans he.symm)
                · exact h3 ⟨by simp [hn], he⟩
              · rfl
            have hewc : e.wildCard = false := by
              cases he : e.wildCard
              · rfl
              · exact absurd (hnwc.trans he.symm) h4
            cases hrs : regScan n rest with
            | none =>
              rw [hrs] at hscan
              simp at hscan
            | some j =>
              rw [hrs] at hscan
              simp at hscan
              have hk : k = j + 1 := hscan.symm
              subst hk
              rw [insertIdx_succ_cons_eq]
              refine List.pairwise_cons.mpr ⟨?_, ih htail hfreshRest j hrs⟩
              intro m hm
              rcases mem_insertIdx_elim m n j rest hm with hm | hm
              · subst hm
                have hwce : listenerWcKey e = 0 := wcKey_of_false e hewc
                have hwcm : listenerWcKey m = 1 := wcKey_of_true m hnwc
                refine ⟨listenerBefore_of_bucket e m
                  (Or.inr ⟨famKey_congr e m h2eq.symm, by omega⟩), ?_⟩
                intro hs
                obtain ⟨_, hsw, _, _⟩ := hs
                exact h4 hsw.symm
              · exact hhead m hm
          · have h4eq : n.wildCard = e.wildCard := by
              by_contra hne
              exact h4 hne
            rw [if_neg h4] at hscan
            have hweq : listenerWcKey n = listenerWcKey e := by
              unfold listenerWcKey
              rw [h4eq]
            by_cases h5 : n.family ≠ AddressFamily.unspec ∧ n.ip ≠ e.ip
            · -- continue: same bucket, different IP
              rw [if_pos h5] at hscan
              cases hrs : regScan n rest with
              | none =>
                rw [hrs] at hscan
                simp at hscan
              | some j =>
                rw [hrs] at hscan
                simp at hscan
                have hk : k = j + 1 := hscan.symm
                subst hk
                rw [insertIdx_succ_cons_eq]
                refine List.pairwise_cons.mpr ⟨?_, ih htail hfreshRest j hrs⟩
                intro m hm
                rcases mem_insertIdx_elim m n j rest hm with hm | hm
                · subst hm
                  refine ⟨listenerBefore_of_id e m
                    (famKey_congr e m h2eq.symm) hweq.symm hfreshE, ?_⟩
                  intro hs
                  obtain ⟨_, _, hsip, _⟩ := hs
                  have hefam : e.family ≠ AddressFamily.unspec := by
                    rw [← h2eq]
                    exact h5.1
                  exact h5.2 (hsip hefam).symm
                · exact hhead m hm
            · rw [if_neg h5] at hscan
              by_cases h6 : n.alpn = e.alpn
              · -- duplicate: scan returns none, contradiction
                rw [if_pos h6] at hscan
                simp at hscan
              · -- continue: same bucket and IP, different ALPN
                rw [if_neg h6] at hscan
                cases hrs : regScan n rest with
                | none =>
                  rw [hrs] at hscan
                  simp at hscan
                | some j =>
                  rw [hrs] at hscan
                  simp at hscan
                  have hk : k = j + 1 := hscan.symm
                  subst hk
                  rw [insertIdx_succ_cons_eq]
                  refine List.pairwise_cons.mpr ⟨?_,
                    ih htail hfreshRest j hrs⟩
                  intro m hm
                  rcases mem_insertIdx_elim m n j rest hm with hm | hm
                  · subst hm
                    refine ⟨listenerBefore_of_id e m
                      (famKey_congr e m h2eq.symm) hweq.symm hfreshE, ?_⟩
                    intro hs
                    obtain ⟨_, _, _, hsa⟩ := hs
                    exact h6 hsa.symm
                  · exact hhead m hm

/-- Helper: in a well-formed list, a scan for a listener that has a
duplicate somewhere in the list always reaches and reports the duplicate:
the sort order guarantees no break can occur before it. -/
theorem regScan_dup_none (n : QuicListener) (ls : List QuicListener)
    (hpair : List.Pairwise listenerOrdered ls)
    (hdup : ∃ e ∈ ls, sameListenerKey e n) :
    regScan n ls = none := by
  induction ls with
  | nil => simp at hdup
  | cons e rest ih =>
    obtain ⟨hhead, htail⟩ := List.pairwise_cons.mp hpair
    rcases hdup with ⟨d, hd, hdk⟩
    rcases List.mem_cons.mp hd with hde | hdr
    · have hek : sameListenerKey e n := hde ▸ hdk
      obtain ⟨hf, hw, hip, ha⟩ := hek
      have hcode : e.family.code = n.family.code := by rw [hf]
      unfold regScan
      rw [if_neg (by omega : ¬ e.family.code < n.family.code)]
      rw [if_neg (show ¬ n.family ≠ e.family from fun hne => hne hf.symm)]
      rw [if_neg (show ¬ (¬ n.wildCard ∧ e.wildCard) from
        fun hcon => hcon.1 (hw.symm.trans hcon.2))]
      rw [if_neg (show ¬ n.wildCard ≠ e.wildCard from fun hne => hne hw.symm)]
      rw [if_neg (show ¬ (n.family ≠ AddressFamily.unspec ∧ n.ip ≠ e.ip) from
        fun hcon => hcon.2 (hip (by rw [hf]; exact hcon.1)).symm)]
      rw [if_pos ha.symm]
    · have hrec : regScan n rest = none := ih htail ⟨d, hdr, hdk⟩
      obtain ⟨hbed, _⟩ := hhead d hdr
      obtain ⟨hdbk1, hdbk2⟩ := sameListenerKey_bucket d n hdk
      unfold regScan
      by_cases h1 : e.family.code < n.family.code
      · exfalso
        have h1k := famKey_lt_of_code_lt n e h1
        unfold listenerBefore at hbed
        omega
      · rw [if_neg h1]
        by_cases h2 : n.family ≠ e.family
        · rw [if_pos h2, hrec]
          rfl
        · rw [if_neg h2]
          have h2eq : n.family = e.family := not_not.mp h2
          by_cases h3 : ¬ n.wildCard ∧ e.wildCard
          · exfalso
            have hfeq := famKey_congr n e h2eq
            have hwcn : listenerWcKey n = 0 := wcKey_of_false n (by
              cases hn : n.wildCard
              · rfl
              · exact absurd hn h3.1)
            have hwce : listenerWcKey e = 1 := wcKey_of_true e h3.2
            unfold listenerBefore at hbed
            omega
          · rw [if_neg h3]
            by_cases h4 : n.wildCard ≠ e.wildCard
            · rw [if_pos h4, hrec]
              rfl
            · rw [if_neg h4]
              by_cases h5 : n.family ≠ AddressFamily.unspec ∧ n.ip ≠ e.ip
              · rw [if_pos h5, hrec]
                rfl
              · rw [if_neg h5]
                by_cases h6 : n.alpn = e.alpn
                · rw [if_pos h6]
                · rw [if_neg h6, hrec]
                  rfl

/-- Helper: each registry step preserves well-formedness. -/
theorem listenerRegStep_preserves (st : List QuicListener × Nat)
    (op : ListenerRegOp) (h : listenerRegistryWF st) :
    listenerRegistryWF (listenerRegStep st op) := by
  obtain ⟨hpair, hids⟩ := h
  cases op with
  | register f w ip alpn mo =>
    simp only [listenerRegStep]
    cases hscan : regScan ⟨f, w, ip, alpn, true, st.2⟩ st.1 with
    | none =>
      simp only [quicBindingRegisterListener, hscan]
      refine ⟨hpair, ?_⟩
      intro l hl
      have := hids l hl
      omega
    | some k =>
      simp only [quicBindingRegisterListener, hscan]
      by_cases hcond : st.1.isEmpty ∧ ¬ mo
      · rw [if_pos hcond]
        refine ⟨hpair, ?_⟩
        intro l hl
        have := hids l hl
        omega
      · rw [if_neg hcond]
        constructor
        · exact regScan_insert_sorted ⟨f, w, ip, alpn, true, st.2⟩ st.1
            hpair (fun l hl => hids l hl) k hscan
        · intro l hl
          rcases mem_insertIdx_elim l ⟨f, w, ip, alpn, true, st.2⟩ k
              st.1 hl with hh | hh
          · rw [hh]
            simp
          · have := hids l hh
            omega
  | unregister ident =>
    simp only [listenerRegStep]
    unfold quicBindingUnregisterListener
    refine ⟨hpair.sublist (List.eraseP_sublist _), ?_⟩
    intro l hl
    exact hids l ((List.eraseP_sublist _).subset hl)

/-- C9: for every sequence of register and unregister calls starting from an
empty binding, the listener list is always sorted (family descending,
specific before wildcard within a family, insertion order — increasing ids —
within each bucket) and never contains two entries agreeing on family,
wildcardness, IP (when the family is not unspec) and ALPN bytes; and a
register of an exact duplicate of a present entry returns false and leaves
the list unchanged. -/
theorem listenerRegistry_invariant (ops : List ListenerRegOp) :
    List.Pairwise listenerOrdered (runListenerRegOps ops).1 ∧
    (∀ f w ip alpn mo,
      (∃ e ∈ (runListenerRegOps ops).1,
        sameListenerKey e ⟨f, w, ip, alpn, true, (runListenerRegOps ops).2⟩) →
      quicBindingRegisterListener (runListenerRegOps ops).1
        ⟨f, w, ip, alpn, true, (runListenerRegOps ops).2⟩ mo =
      ((runListenerRegOps ops).1, false)) := by
  have hwf : listenerRegistryWF (runListenerRegOps ops) := by
    unfold runListenerRegOps
    have hgen : ∀ (l : List ListenerRegOp) (st : List QuicListener × Nat),
        listenerRegistryWF st →
        listenerRegistryWF (l.foldl listenerRegStep st) := by
      intro l
      induction l with
      | nil =>
        intro st h
        exact h
      | cons op rest ih =>
        intro st h
        exact ih _ (listenerRegStep_preserves st op h)
    exact hgen ops ([], 0) ⟨List.Pairwise.nil, by simp⟩
  refine ⟨hwf.1, ?_⟩
  intro f w ip alpn mo hdup
  have hscan := regScan_dup_none
    ⟨f, w, ip, alpn, true, (runListenerRegOps ops).2⟩
    (runListenerRegOps ops).1 hwf.1 hdup
  unfold quicBindingRegisterListener
  rw [hscan]

/-- Witness for the registry theorem: after registering one IPv4-specific
listener with ALPN bytes h3, registering the same family, wildcardness, IP
and ALPN again is rejected and leaves the registry unchanged. -/
theorem listenerRegistry_invariant_witness :
    List.Pairwise listenerOrdered
      (runListenerRegOps
        [ListenerRegOp.register AddressFamily.inet false 5 [104, 51] true]).1 ∧
    quicBindingRegisterListener
      (runListenerRegOps
        [ListenerRegOp.register AddressFamily.inet false 5 [104, 51] true]).1
      ⟨AddressFamily.inet, false, 5, [104, 51], true,
        (runListenerRegOps
          [ListenerRegOp.register AddressFamily.inet false 5
            [104, 51] true]).2⟩ true =
      ((runListenerRegOps
        [ListenerRegOp.register AddressFamily.inet false 5
          [104, 51] true]).1, false) := by
  have h := listenerRegistry_invariant
    [ListenerRegOp.register AddressFamily.inet false 5 [104, 51] true]
  refine ⟨h.1, h.2 AddressFamily.inet false 5 [104, 51] true ?_⟩
  refine ⟨⟨AddressFamily.inet, false, 5, [104, 51], true, 0⟩, ?_, ?_⟩
  · decide
  · exact ⟨rfl, rfl, fun _ => rfl, rfl⟩

end MsQuic
